import Mathlib

/-!
Verification of the blog-proxy caching fetcher (src/main.go).

Go strings are modelled as lists of characters (`Str`), byte slices as
`List Nat` (each element a byte value), and `time.Time` values as `Nat`
nanosecond timestamps.  The outbound HTTP client (`http.Get` together with
`io.ReadAll`) is modelled as an environment function from the requested URL
to a `FetchOutcome`.  Every definition below is translated from the Go
source; the few definitions written from the specification's wording are
marked as such in their doc comments.
-/

set_option autoImplicit false
set_option maxRecDepth 100000

/-- Go strings, modelled as lists of characters. -/
abbrev Str := List Char

/-- Association-list lookup, modelling Go's `m[k]` map read (comma-ok form
returns `none` when the key is absent). -/
def assocGet {α β : Type} [DecidableEq α] (l : List (α × β)) (k : α) : Option β :=
  match l with
  | [] => none
  | (k', v) :: rest => if k' = k then some v else assocGet rest k

/-- Association-list update, modelling Go's `m[k] = v` map write: replaces the
entry for `k` if present, otherwise appends a fresh entry. -/
def assocPut {α β : Type} [DecidableEq α] (l : List (α × β)) (k : α) (v : β) : List (α × β) :=
  match l with
  | [] => [(k, v)]
  | (k', v') :: rest => if k' = k then (k, v) :: rest else (k', v') :: assocPut rest k v

/-! ### MD5 (crypto/md5), operating on byte lists -/

/-- Reduce to a 32-bit word, i.e. `mod 2^32`. -/
def w32 (x : Nat) : Nat := x % 4294967296

/-- 32-bit modular addition. -/
def wadd (a b : Nat) : Nat := (a + b) % 4294967296

/-- 32-bit bitwise complement (for words below `2^32`). -/
def wnot (x : Nat) : Nat := Nat.xor x 4294967295

/-- 32-bit left rotation by `s` (for words below `2^32`). -/
def rotl (x s : Nat) : Nat := Nat.lor (x <<< s) (x >>> (32 - s)) % 4294967296

/-- MD5 round function F (rounds 0-15). -/
def mdF (b c d : Nat) : Nat := Nat.lor (Nat.land b c) (Nat.land (wnot b) d)

/-- MD5 round function G (rounds 16-31). -/
def mdG (b c d : Nat) : Nat := Nat.lor (Nat.land b d) (Nat.land c (wnot d))

/-- MD5 round function H (rounds 32-47). -/
def mdH (b c d : Nat) : Nat := Nat.xor (Nat.xor b c) d

/-- MD5 round function I (rounds 48-63). -/
def mdI (b c d : Nat) : Nat := Nat.xor c (Nat.lor b (wnot d))

/-- The 64 MD5 sine-derived constants. -/
def mdK : List Nat :=
  [0xd76aa478, 0xe8c7b756, 0x242070db, 0xc1bdceee,
   0xf57c0faf, 0x4787c62a, 0xa8304613, 0xfd469501,
   0x698098d8, 0x8b44f7af, 0xffff5bb1, 0x895cd7be,
   0x6b901122, 0xfd987193, 0xa679438e, 0x49b40821,
   0xf61e2562, 0xc040b340, 0x265e5a51, 0xe9b6c7aa,
   0xd62f105d, 0x02441453, 0xd8a1e681, 0xe7d3fbc8,
   0x21e1cde6, 0xc33707d6, 0xf4d50d87, 0x455a14ed,
   0xa9e3e905, 0xfcefa3f8, 0x676f02d9, 0x8d2a4c8a,
   0xfffa3942, 0x8771f681, 0x6d9d6122, 0xfde5380c,
   0xa4beea44, 0x4bdecfa9, 0xf6bb4b60, 0xbebfbc70,
   0x289b7ec6, 0xeaa127fa, 0xd4ef3085, 0x04881d05,
   0xd9d4d039, 0xe6db99e5, 0x1fa27cf8, 0xc4ac5665,
   0xf4292244, 0x432aff97, 0xab9423a7, 0xfc93a039,
   0x655b59c3, 0x8f0ccc92, 0xffeff47d, 0x85845dd1,
   0x6fa87e4f, 0xfe2ce6e0, 0xa3014314, 0x4e0811a1,
   0xf7537e82, 0xbd3af235, 0x2ad7d2bb, 0xeb86d391]

/-- The 64 MD5 per-round left-rotation amounts. -/
def mdS : List Nat :=
  [7, 12, 17, 22, 7, 12, 17, 22, 7, 12, 17, 22, 7, 12, 17, 22,
   5, 9, 14, 20, 5, 9, 14, 20, 5, 9, 14, 20, 5, 9, 14, 20,
   4, 11, 16, 23, 4, 11, 16, 23, 4, 11, 16, 23, 4, 11, 16, 23,
   6, 10, 15, 21, 6, 10, 15, 21, 6, 10, 15, 21, 6, 10, 15, 21]

/-- One MD5 round: state is `(a, b, c, d)`, `M` the 16 words of the current
block, `i` the round index. -/
def md5round (M : List Nat) (st : Nat × Nat × Nat × Nat) (i : Nat) : Nat × Nat × Nat × Nat :=
  let a := st.1
  let b := st.2.1
  let c := st.2.2.1
  let d := st.2.2.2
  let f := if i < 16 then mdF b c d
           else if i < 32 then mdG b c d
           else if i < 48 then mdH b c d
           else mdI b c d
  let g := if i < 16 then i
           else if i < 32 then (5 * i + 1) % 16
           else if i < 48 then (3 * i + 5) % 16
           else (7 * i) % 16
  let t := wadd (wadd (wadd f a) (mdK.getD i 0)) (M.getD g 0)
  (d, wadd b (rotl t (mdS.getD i 0)), b, c)

/-- Decode a byte list into little-endian 32-bit words, four bytes at a time. -/
def leWords : List Nat → List Nat
  | b0 :: b1 :: b2 :: b3 :: rest =>
      (b0 + 256 * b1 + 65536 * b2 + 16777216 * b3) :: leWords rest
  | _ => []

/-- Little-endian 4-byte encoding of a 32-bit word. -/
def le4 (n : Nat) : List Nat :=
  [n % 256, n / 256 % 256, n / 65536 % 256, n / 16777216 % 256]

/-- Little-endian 8-byte encoding of a 64-bit value. -/
def le8 (n : Nat) : List Nat :=
  le4 (n % 4294967296) ++ le4 (n / 4294967296 % 4294967296)

/-- MD5 padding: append `0x80`, zero bytes up to 56 mod 64, then the 64-bit
little-endian bit length. -/
def md5pad (msg : List Nat) : List Nat :=
  let len := msg.length
  let padZeros := (119 - len % 64) % 64
  msg ++ [128] ++ List.replicate padZeros 0 ++ le8 ((8 * len) % 18446744073709551616)

/-- Split into 64-byte chunks, with fuel bounding the number of chunks (each
step consumes at least one byte, so `l.length` fuel always suffices). -/
def chunksGo : Nat → List Nat → List (List Nat)
  | 0, _ => []
  | _ + 1, [] => []
  | n + 1, l => l.take 64 :: chunksGo n (l.drop 64)

/-- Split a byte list into 64-byte chunks. -/
def chunks64 (l : List Nat) : List (List Nat) := chunksGo l.length l

/-- Process one 64-byte block, updating the running MD5 state. -/
def md5block (st : Nat × Nat × Nat × Nat) (block : List Nat) : Nat × Nat × Nat × Nat :=
  let M := leWords block
  let r := (List.range 64).foldl (md5round M) st
  (wadd st.1 r.1, wadd st.2.1 r.2.1, wadd st.2.2.1 r.2.2.1, wadd st.2.2.2 r.2.2.2)

/-- The 16-byte MD5 digest of a byte list. -/
def md5bytes (msg : List Nat) : List Nat :=
  let r := (chunks64 (md5pad msg)).foldl md5block (1732584193, 4023233417, 2562383102, 271733878)
  le4 r.1 ++ le4 r.2.1 ++ le4 r.2.2.1 ++ le4 r.2.2.2

/-- The lowercase hexadecimal digit of a nibble: "0123456789abcdef". -/
def hexChar (n : Nat) : Char :=
  Char.ofNat (if n < 10 then 48 + n else 87 + n)

/-- Lowercase hexadecimal rendering of a byte list (two digits per byte),
modelling `hex.EncodeToString`. -/
def hexEncode (bs : List Nat) : Str :=
  bs.foldr (fun b acc => hexChar (b / 16) :: hexChar (b % 16) :: acc) []

/-- The content digest computed at src/main.go lines 113-115: the lowercase
hex encoding of the MD5 digest of the body bytes. -/
def md5Hex (msg : List Nat) : Str := hexEncode (md5bytes msg)

/-! ### Data model (src/main.go lines 30-73) -/

/-- The cached object (src/main.go lines 30-36).  Timestamps are `Nat`
nanoseconds. -/
structure Object where
  Etag : Str
  ContentType : Str
  Content : List Nat
  UpdateTime : Nat
  ExpiryTime : Nat
deriving DecidableEq, Repr

/-- Go's zero value `Object{}`. -/
def Object.zero : Object := ⟨[], [], [], 0, 0⟩

/-- The two-level cache map (src/main.go line 38), as nested association
lists. -/
abbrev Cache := List (Str × List (Str × Object))

/-- Cache lookup (src/main.go lines 40-47): missing host or missing page
yields the zero object and `false`. -/
def Cache.Get (c : Cache) (hostName pageName : Str) : Object × Bool :=
  match assocGet c hostName with
  | none => (Object.zero, false)
  | some host =>
    match assocGet host pageName with
    | none => (Object.zero, false)
    | some obj => (obj, true)

/-- Cache insertion (src/main.go lines 49-56): creates the inner map on first
insert for a host, then writes the page entry. -/
def Cache.Put (c : Cache) (hostName pageName : Str) (obj : Object) : Cache :=
  let host := (assocGet c hostName).getD []
  assocPut c hostName (assocPut host pageName obj)

/-- One hour in nanoseconds (`time.Hour`). -/
def Hour : Nat := 3600000000000

/-- The freshness window used at src/main.go line 122: 24 hours. -/
def TTL : Nat := 24 * Hour

/-- The storage service (src/main.go lines 70-73): the allow-list and the
cache. -/
structure Storage where
  allowed : List Str
  cache : Cache
deriving DecidableEq, Repr

/-- The literal string "https://paulgraham.com". -/
def pgHost : Str :=
  ['h', 't', 't', 'p', 's', ':', '/', '/', 'p', 'a', 'u', 'l', 'g', 'r', 'a', 'h', 'a', 'm', '.', 'c', 'o', 'm']

/-- Service construction (src/main.go lines 58-68): the fixed allow-list and
an empty cache.  (The Go constructor never returns an error.) -/
def NewStorage : Storage := { allowed := [pgHost], cache := [] }

/-- The errors `Storage.Get` can return (the Go code returns `fmt.Errorf`
messages; each constructor stands for one message). -/
inductive ResolveError where
  /-- Go message "host name is empty" (line 77). -/
  | hostNameEmpty
  /-- Go message "page name is empty" (line 80). -/
  | pageNameEmpty
  /-- Go message "host not allowed" (line 85). -/
  | hostNotAllowed
  /-- Go message "failed to get object" (line 100, `http.Get` failure). -/
  | getFailed
  /-- Go message "failed to read object" (line 107, `io.ReadAll` failure). -/
  | readFailed
deriving DecidableEq, Repr

/-- The spec's error taxonomy (spec section 7). -/
inductive ErrKind where
  | invalidInput
  | originNotAllowed
  | fetchFailed
deriving DecidableEq, Repr

/-- Modelled from the spec: section 7 groups the five concrete errors into
`InvalidInput`, `OriginNotAllowed` and `FetchFailed`. -/
def ResolveError.kind : ResolveError → ErrKind
  | .hostNameEmpty => .invalidInput
  | .pageNameEmpty => .invalidInput
  | .hostNotAllowed => .originNotAllowed
  | .getFailed => .fetchFailed
  | .readFailed => .fetchFailed

/-- Outcome of one outbound `http.Get` + `io.ReadAll` against a URL:
either a transport error, or a response carrying the HTTP status code, the
`Content-Type` header value (empty if absent) and the body read result
(`none` models an `io.ReadAll` failure). -/
inductive FetchOutcome where
  | transportError
  | response (status : Nat) (contentType : Str) (bodyRead : Option (List Nat))
deriving DecidableEq, Repr

/-- Result of one `Storage.Get` call: the returned `(Object, error)` pair
(Go returns the zero object alongside a non-nil error), the storage state
after the call, and whether an outbound HTTP request was performed. -/
structure ResolveOut where
  obj : Object
  err : Option ResolveError
  state : Storage
  fetched : Bool
deriving DecidableEq, Repr

/-- The resolve operation (src/main.go lines 75-128).  `now` is the current
time and `env` maps the fetched URL to the outcome of `http.Get`/`io.ReadAll`.
The Go method mutates `s.cache` in place; here the updated storage is
returned in the `state` field. -/
def Storage.Get (s : Storage) (now : Nat) (env : Str → FetchOutcome)
    (hostName pageName : Str) : ResolveOut :=
  if hostName = [] then ⟨Object.zero, some .hostNameEmpty, s, false⟩
  else if pageName = [] then ⟨Object.zero, some .pageNameEmpty, s, false⟩
  else if hostName ∈ s.allowed then
    let hit := Cache.Get s.cache hostName pageName
    if hit.2 = true ∧ now < hit.1.ExpiryTime then ⟨hit.1, none, s, false⟩
    else
      match env (hostName ++ '/' :: pageName) with
      | .transportError => ⟨Object.zero, some .getFailed, s, true⟩
      | .response _status contentType bodyRead =>
        match bodyRead with
        | none => ⟨Object.zero, some .readFailed, s, true⟩
        | some content =>
          let obj : Object := ⟨md5Hex content, contentType, content, now, now + TTL⟩
          ⟨obj, none, { allowed := s.allowed, cache := Cache.Put s.cache hostName pageName obj }, true⟩
  else ⟨Object.zero, some .hostNotAllowed, s, false⟩

/-! ### HTTP handler URL parsing (src/main.go lines 144-179) -/

/-- The literal string "https://". -/
def httpsPfx : Str := ['h', 't', 't', 'p', 's', ':', '/', '/']

/-- The literal string "http://". -/
def httpPfx : Str := ['h', 't', 't', 'p', ':', '/', '/']

/-- The literal string "httpd://" (the fallback pseudo-scheme at line 158). -/
def httpdPfx : Str := ['h', 't', 't', 'p', 'd', ':', '/', '/']

/-- Go's `strings.HasPrefix u pre`. -/
def strHasPrefix : Str → Str → Bool
  | _, [] => true
  | [], _ :: _ => false
  | c :: u, d :: rest => c = d && strHasPrefix u rest

/-- Scheme handling (src/main.go lines 148-159): strip a leading
"https://" or "http://" and remember it; otherwise use "httpd://" and leave
the input unchanged. -/
def stripScheme (url : Str) : Str × Str :=
  if strHasPrefix url httpsPfx then (httpsPfx, url.drop 8)
  else if strHasPrefix url httpPfx then (httpPfx, url.drop 7)
  else (httpdPfx, url)

/-- Go's `strings.TrimRight url "/"`: remove every trailing '/'. -/
def trimRightSlash (u : Str) : Str :=
  (u.reverse.dropWhile (fun c => c = '/')).reverse

/-- Go's `strings.SplitN u "/" 2`, in option form: `some (before, after)`
when `u` contains a '/', split at the first one; `none` when it does not
(the length-1 case). -/
def splitFirstSlash : Str → Option (Str × Str)
  | [] => none
  | c :: rest =>
    if c = '/' then some ([], rest)
    else match splitFirstSlash rest with
         | none => none
         | some (a, b) => some (c :: a, b)

/-- The scheme-stripped stage of the handler's parse (src/main.go line 161):
trim trailing slashes, then split at the first '/'. -/
def parseRest (u : Str) : Option (Str × Str) :=
  splitFirstSlash (trimRightSlash u)

/-- The handler's parse of the `url` query parameter (src/main.go lines
147-171): `none` means the handler answers 404 Not Found; otherwise the
result is `(hostName, pageName)` with the scheme glued back onto the host. -/
def parseUrl (url : Str) : Option (Str × Str) :=
  let ps := stripScheme url
  match parseRest ps.2 with
  | none => none
  | some hp => some (ps.1 ++ hp.1, hp.2)

/-- The handler's response, abstracted to what the claims need. -/
inductive HandlerResp where
  | notFound
  | ok (obj : Object)
deriving DecidableEq, Repr

/-- The `GET /` handler (src/main.go lines 144-187): parse the `url`
parameter; on parse failure or any resolve error answer 404, otherwise serve
the object. -/
def handleGet (s : Storage) (now : Nat) (env : Str → FetchOutcome) (url : Str) :
    HandlerResp × Storage :=
  match parseUrl url with
  | none => (.notFound, s)
  | some hp =>
    let r := Storage.Get s now env hp.1 hp.2
    match r.err with
    | some _ => (.notFound, r.state)
    | none => (.ok r.obj, r.state)

/-! ### Definitions written from the specification's wording (for claim C8) -/

/-- Modelled from the spec: "split the remainder on the first `/`", encoded
with take/drop rather than the recursion of `splitFirstSlash`. -/
def splitOnFirst (sep : Char) (u : Str) : Option (Str × Str) :=
  if sep ∈ u then
    some (u.takeWhile (fun c => !(c = sep)), (u.dropWhile (fun c => !(c = sep))).tail)
  else none

/-- Modelled from the spec: claim C8's description of the handler parse —
strip the scheme, then split the remainder on the first '/', with no
trailing-slash removal. -/
def specParseC8 (url : Str) : Option (Str × Str) :=
  let ps := stripScheme url
  match splitOnFirst '/' ps.2 with
  | none => none
  | some hp => some (ps.1 ++ hp.1, hp.2)

/-- Modelled from the spec wording as amended: remove all trailing '/'
characters, encoded as a right fold. -/
def removeTrailing (sep : Char) (u : Str) : Str :=
  u.foldr (fun c acc => if acc = [] ∧ c = sep then [] else c :: acc) []

/-- Modelled from the amended claim C8: strip the scheme, remove all
trailing '/' characters from the remainder, then split on the first '/'. -/
def specParseC8Amended (url : Str) : Option (Str × Str) :=
  let ps := stripScheme url
  match splitOnFirst '/' (removeTrailing '/' ps.2) with
  | none => none
  | some hp => some (ps.1 ++ hp.1, hp.2)

/-! ### Concrete fetch environments and inputs used by the witnesses -/

/-- Environment answering every URL with a 200 response, body "abc". -/
def wEnvOk : Str → FetchOutcome := fun _ => .response 200 [] (some [97, 98, 99])

/-- Environment in which every outbound request has a transport error. -/
def wEnvErr : Str → FetchOutcome := fun _ => .transportError

/-- Environment answering every URL with a 404 response, body "a". -/
def wEnv404 : Str → FetchOutcome := fun _ => .response 404 [] (some [97])

/-- Environment whose responses arrive but whose bodies fail to read. -/
def wEnvRead : Str → FetchOutcome := fun _ => .response 200 [] none

/-- A concrete page name. -/
def wPage : Str := ['x']

/-- The url "https://host/path/" used to exhibit the trailing-slash trim. -/
def c8url : Str :=
  ['h', 't', 't', 'p', 's', ':', '/', '/', 'h', 'o', 's', 't', '/', 'p', 'a', 't', 'h', '/']

/-- ExpiresAt is always fetchedAt plus the fixed TTL (spec section 3). -/
abbrev Object.ttlOK (o : Object) : Prop := o.ExpiryTime = o.UpdateTime + TTL

/-- Every object stored in the cache satisfies `Object.ttlOK`. -/
abbrev Cache.wellExpired (c : Cache) : Prop :=
  ∀ e ∈ c, ∀ e2 ∈ e.2, Object.ttlOK e2.2

/-! ### Helper lemmas: association lists -/

theorem assocGet_put_self {α β : Type} [DecidableEq α] (l : List (α × β)) (k : α) (v : β) :
    assocGet (assocPut l k v) k = some v := by
  induction l with
  | nil => simp [assocPut, assocGet]
  | cons hd tl ih =>
    obtain ⟨k', v'⟩ := hd
    by_cases hk : k' = k
    · simp [assocPut, hk, assocGet]
    · simp [assocPut, hk, assocGet, ih]

theorem assocGet_put_ne {α β : Type} [DecidableEq α] (l : List (α × β)) (k k' : α) (v : β)
    (hne : k ≠ k') : assocGet (assocPut l k v) k' = assocGet l k' := by
  induction l with
  | nil => simp [assocPut, assocGet, hne]
  | cons hd tl ih =>
    obtain ⟨k0, v0⟩ := hd
    by_cases hk : k0 = k
    · subst hk
      simp [assocPut, assocGet, hne]
    · simp [assocPut, hk, assocGet, ih]

theorem assocGet_mem {α β : Type} [DecidableEq α] {l : List (α × β)} {k : α} {v : β}
    (h : assocGet l k = some v) : (k, v) ∈ l := by
  induction l with
  | nil => simp [assocGet] at h
  | cons hd tl ih =>
    obtain ⟨k', v'⟩ := hd
    by_cases hk : k' = k
    · subst hk
      simp [assocGet] at h
      subst h
      exact List.mem_cons_self _ _
    · simp [assocGet, hk] at h
      exact List.mem_cons_of_mem _ (ih h)

theorem mem_assocPut {α β : Type} [DecidableEq α] {l : List (α × β)} {k : α} {v : β}
    {x : α × β} (h : x ∈ assocPut l k v) : x = (k, v) ∨ x ∈ l := by
  induction l with
  | nil => simpa [assocPut] using h
  | cons hd tl ih =>
    obtain ⟨k', v'⟩ := hd
    by_cases hk : k' = k
    · simp [assocPut, hk] at h
      rcases h with h | h
      · exact Or.inl h
      · exact Or.inr (List.mem_cons_of_mem _ h)
    · simp [assocPut, hk] at h
      rcases h with h | h
      · exact Or.inr (by simp [h])
      · rcases ih h with h' | h'
        · exact Or.inl h'
        · exact Or.inr (List.mem_cons_of_mem _ h')

/-! ### Helper lemmas: the cache store -/

theorem cacheGet_put_self (c : Cache) (h p : Str) (o : Object) :
    Cache.Get (Cache.Put c h p o) h p = (o, true) := by
  unfold Cache.Put Cache.Get
  rw [assocGet_put_self]
  simp [assocGet_put_self]

theorem cacheGet_put_other (c : Cache) (h p : Str) (o : Object) (h' p' : Str)
    (hne : ¬(h' = h ∧ p' = p)) :
    Cache.Get (Cache.Put c h p o) h' p' = Cache.Get c h' p' := by
  by_cases hh : h' = h
  · subst hh
    have hp : p ≠ p' := fun e => hne ⟨rfl, e.symm⟩
    unfold Cache.Put Cache.Get
    rw [assocGet_put_self]
    cases hc : assocGet c h' with
    | none => simp [assocGet_put_ne _ _ _ _ hp, assocGet, hp]
    | some host => simp [assocGet_put_ne _ _ _ _ hp, hp]
  · unfold Cache.Put Cache.Get
    rw [assocGet_put_ne _ _ _ _ (fun e => hh e.symm)]

theorem wellExpired_get {c : Cache} {h p : Str} {obj : Object}
    (hw : Cache.wellExpired c) (hg : Cache.Get c h p = (obj, true)) : Object.ttlOK obj := by
  unfold Cache.Get at hg
  cases hc : assocGet c h with
  | none => simp [hc] at hg
  | some host =>
    simp only [hc] at hg
    cases hi : assocGet host p with
    | none => simp [hi] at hg
    | some o2 =>
      simp only [hi] at hg
      have hobj : o2 = obj := by simpa using congrArg Prod.fst hg
      subst hobj
      exact hw (h, host) (assocGet_mem hc) (p, o2) (assocGet_mem hi)

theorem wellExpired_put {c : Cache} (hw : Cache.wellExpired c) {h p : Str} {obj : Object}
    (ho : Object.ttlOK obj) : Cache.wellExpired (Cache.Put c h p obj) := by
  intro e he e2 he2
  unfold Cache.Put at he
  rcases mem_assocPut he with rfl | he'
  · rcases mem_assocPut he2 with rfl | he2'
    · exact ho
    · cases hc : assocGet c h with
      | none => rw [hc] at he2'; simp at he2'
      | some host =>
        rw [hc] at he2'
        exact hw (h, host) (assocGet_mem hc) e2 he2'
  · exact hw e he' e2 he2

/-! ### Helper lemmas: the resolve operation, one per control-flow branch -/

theorem resolve_emptyHost (s : Storage) (now : Nat) (env : Str → FetchOutcome) (p : Str) :
    Storage.Get s now env [] p = ⟨Object.zero, some .hostNameEmpty, s, false⟩ := by
  simp [Storage.Get]

theorem resolve_emptyPage (s : Storage) (now : Nat) (env : Str → FetchOutcome) (h : Str)
    (hh : h ≠ []) :
    Storage.Get s now env h [] = ⟨Object.zero, some .pageNameEmpty, s, false⟩ := by
  simp [Storage.Get, hh]

theorem resolve_notAllowed (s : Storage) (now : Nat) (env : Str → FetchOutcome) (h p : Str)
    (hh : h ≠ []) (hp : p ≠ []) (hm : h ∉ s.allowed) :
    Storage.Get s now env h p = ⟨Object.zero, some .hostNotAllowed, s, false⟩ := by
  simp [Storage.Get, hh, hp, hm]

theorem resolve_hit (s : Storage) (now : Nat) (env : Str → FetchOutcome) (h p : Str)
    (obj : Object) (hh : h ≠ []) (hp : p ≠ []) (hm : h ∈ s.allowed)
    (hg : Cache.Get s.cache h p = (obj, true)) (hfresh : now < obj.ExpiryTime) :
    Storage.Get s now env h p = ⟨obj, none, s, false⟩ := by
  simp [Storage.Get, hh, hp, hm, hg, hfresh]

theorem resolve_miss (s : Storage) (now : Nat) (env : Str → FetchOutcome) (h p : Str)
    (hh : h ≠ []) (hp : p ≠ []) (hm : h ∈ s.allowed)
    (hmiss : ¬((Cache.Get s.cache h p).2 = true ∧ now < (Cache.Get s.cache h p).1.ExpiryTime)) :
    Storage.Get s now env h p =
      match env (h ++ '/' :: p) with
      | .transportError => ⟨Object.zero, some .getFailed, s, true⟩
      | .response _ _ none => ⟨Object.zero, some .readFailed, s, true⟩
      | .response _ ct (some content) =>
          ⟨⟨md5Hex content, ct, content, now, now + TTL⟩, none,
           ⟨s.allowed, Cache.Put s.cache h p ⟨md5Hex content, ct, content, now, now + TTL⟩⟩,
           true⟩ := by
  cases henv : env (h ++ '/' :: p) with
  | transportError => simp [Storage.Get, hh, hp, hm, hmiss, henv]
  | response st ct body => cases body <;> simp [Storage.Get, hh, hp, hm, hmiss, henv]

theorem fetched_eq_true (s : Storage) (now : Nat) (env : Str → FetchOutcome) (h p : Str)
    (hf : (Storage.Get s now env h p).fetched = true) :
    h ≠ [] ∧ p ≠ [] ∧ h ∈ s.allowed ∧
    ¬((Cache.Get s.cache h p).2 = true ∧ now < (Cache.Get s.cache h p).1.ExpiryTime) := by
  by_cases hh : h = []
  · subst hh; rw [resolve_emptyHost] at hf; simp at hf
  · by_cases hp : p = []
    · subst hp; rw [resolve_emptyPage _ _ _ _ hh] at hf; simp at hf
    · by_cases hm : h ∈ s.allowed
      · by_cases hmiss :
          (Cache.Get s.cache h p).2 = true ∧ now < (Cache.Get s.cache h p).1.ExpiryTime
        · have hg : Cache.Get s.cache h p = ((Cache.Get s.cache h p).1, true) := by
            rw [← hmiss.1]
          rw [resolve_hit s now env h p _ hh hp hm hg hmiss.2] at hf
          simp at hf
        · exact ⟨hh, hp, hm, hmiss⟩
      · rw [resolve_notAllowed s now env h p hh hp hm] at hf; simp at hf

/-! ### Helper lemmas: URL parsing -/

theorem dropWhile_append_cases (f : Char → Bool) (l1 l2 : Str) :
    (l1 ++ l2).dropWhile f =
      if l1.dropWhile f = [] then l2.dropWhile f else l1.dropWhile f ++ l2 := by
  induction l1 with
  | nil => simp
  | cons c t ih =>
    by_cases hc : f c = true
    · simp [List.dropWhile_cons, hc, ih]
    · simp [List.dropWhile_cons, hc]

theorem removeTrailing_eq_trim (u : Str) : removeTrailing '/' u = trimRightSlash u := by
  induction u with
  | nil => rfl
  | cons c t ih =>
    unfold removeTrailing at ih ⊢
    unfold trimRightSlash at ih ⊢
    simp only [List.foldr_cons, List.reverse_cons]
    rw [dropWhile_append_cases]
    by_cases he : t.reverse.dropWhile (fun c => decide (c = '/')) = []
    · have hemp : t.foldr (fun c acc => if acc = [] ∧ c = '/' then [] else c :: acc) [] = [] := by
        rw [ih, he]; rfl
      rw [hemp]
      by_cases hc : c = '/'
      · simp [he, hc]
      · simp [he, hc]
    · have hne : t.foldr (fun c acc => if acc = [] ∧ c = '/' then [] else c :: acc) [] ≠ [] := by
        rw [ih]
        intro hcon
        exact he (by simpa using congrArg List.reverse hcon)
      have hcond :
          ¬(List.foldr (fun c acc => if acc = [] ∧ c = '/' then [] else c :: acc) [] t = []
              ∧ c = '/') :=
        fun hand => hne hand.1
      rw [if_neg hcond, if_neg he, List.reverse_append]
      simp [ih]

theorem splitFirstSlash_none {u : Str} (hu : '/' ∉ u) : splitFirstSlash u = none := by
  induction u with
  | nil => rfl
  | cons c t ih =>
    have hc : c ≠ '/' := fun e => hu (by simp [e])
    have ht : '/' ∉ t := fun e => hu (List.mem_cons_of_mem _ e)
    simp [splitFirstSlash, hc, ih ht]

theorem splitFirstSlash_at {h : Str} (hh : '/' ∉ h) (p : Str) :
    splitFirstSlash (h ++ '/' :: p) = some (h, p) := by
  induction h with
  | nil => simp [splitFirstSlash]
  | cons c t ih =>
    have hc : c ≠ '/' := fun e => hh (by simp [e])
    have ht : '/' ∉ t := fun e => hh (List.mem_cons_of_mem _ e)
    simp [splitFirstSlash, hc, ih ht]

theorem splitFirstSlash_take_drop (u : Str) (hm : '/' ∈ u) :
    splitFirstSlash u =
      some (u.takeWhile (fun c => !(c = '/')), (u.dropWhile (fun c => !(c = '/'))).tail) := by
  induction u with
  | nil => simp at hm
  | cons c t ih =>
    by_cases hc : c = '/'
    · subst hc
      simp [splitFirstSlash, List.takeWhile_cons, List.dropWhile_cons]
    · have hmt : '/' ∈ t := by
        rcases List.mem_cons.mp hm with h | h
        · exact absurd h.symm hc
        · exact h
      simp [splitFirstSlash, hc, ih hmt, List.takeWhile_cons, List.dropWhile_cons]

theorem splitOnFirst_eq_splitFirstSlash (u : Str) :
    splitOnFirst '/' u = splitFirstSlash u := by
  by_cases hm : '/' ∈ u
  · unfold splitOnFirst
    rw [if_pos hm, splitFirstSlash_take_drop u hm]
  · unfold splitOnFirst
    rw [if_neg hm, splitFirstSlash_none hm]

theorem trim_append_slash (u : Str) : trimRightSlash (u ++ ['/']) = trimRightSlash u := by
  unfold trimRightSlash
  rw [List.reverse_append]
  simp [List.dropWhile_cons]

theorem trim_replicate (u : Str) (k : Nat) :
    trimRightSlash (u ++ List.replicate k '/') = trimRightSlash u := by
  induction k with
  | zero => simp
  | succ n ih =>
    rw [List.replicate_succ', ← List.append_assoc, trim_append_slash, ih]

theorem trim_no_trailing {u : Str} (hu : u.getLast? ≠ some '/') : trimRightSlash u = u := by
  cases hrev : u.reverse with
  | nil =>
    have hu0 : u = [] := by simpa using congrArg List.reverse hrev
    subst hu0; rfl
  | cons c t =>
    have hlast : u.getLast? = some c := by
      rw [← List.head?_reverse, hrev]; rfl
    have hc : c ≠ '/' := by
      intro hcc
      exact hu (by rw [hlast, hcc])
    unfold trimRightSlash
    rw [hrev, List.dropWhile_cons, if_neg (by simp [hc])]
    rw [← hrev, List.reverse_reverse]

theorem getLast?_no_slash {u : Str} (hu : '/' ∉ u) : u.getLast? ≠ some '/' := by
  intro hcon
  have hmem : '/' ∈ u.getLast? := Option.mem_def.mpr hcon
  obtain ⟨hne, hlast⟩ := List.mem_getLast?_eq_getLast hmem
  exact hu (hlast ▸ List.getLast_mem hne)

/-! ### Claim theorems -/

/-- C9: Cache Store operations are total and satisfy the get-put laws: `Get`
on a key that is not found returns the zero `Object` with `false`; after
`Put h p obj`, `Get h p` returns `(obj, true)`; and every other key maps to
exactly what it mapped to before the `Put`.  (Totality is inherent: both
operations are total Lean functions.) -/
theorem spec_C9_cacheLaws :
    (∀ (c : Cache) (h p : Str), (Cache.Get c h p).2 = false →
      Cache.Get c h p = (Object.zero, false)) ∧
    (∀ (c : Cache) (h p : Str) (obj : Object),
      Cache.Get (Cache.Put c h p obj) h p = (obj, true)) ∧
    (∀ (c : Cache) (h p h' p' : Str) (obj : Object), ¬(h' = h ∧ p' = p) →
      Cache.Get (Cache.Put c h p obj) h' p' = Cache.Get c h' p') := by
  refine ⟨?_, ?_, ?_⟩
  · intro c h p hfb
    unfold Cache.Get at hfb ⊢
    cases hc : assocGet c h with
    | none => rfl
    | some host =>
      simp only [hc] at hfb ⊢
      cases hi : assocGet host p with
      | none => rfl
      | some o2 => simp [hi] at hfb
  · intro c h p obj
    exact cacheGet_put_self c h p obj
  · intro c h p h' p' obj hne
    exact cacheGet_put_other c h p obj h' p' hne

/-- C9 witness: the three laws at concrete inputs. -/
theorem spec_C9_cacheLaws_witness :
    Cache.Get [] ['x'] ['y'] = (Object.zero, false) ∧
    Cache.Get (Cache.Put [] ['a'] ['b'] Object.zero) ['a'] ['b'] = (Object.zero, true) ∧
    Cache.Get (Cache.Put [] ['a'] ['b'] Object.zero) ['a'] ['c'] = Cache.Get [] ['a'] ['c'] :=
  ⟨spec_C9_cacheLaws.1 [] ['x'] ['y'] (by decide),
   spec_C9_cacheLaws.2.1 [] ['a'] ['b'] Object.zero,
   spec_C9_cacheLaws.2.2 [] ['a'] ['b'] ['a'] ['c'] Object.zero (by decide)⟩

/-- C4: validation runs in a fixed order with the first failure winning: an
empty origin fails with `InvalidInput` ("host name is empty"); otherwise an
empty resource fails with `InvalidInput` ("page name is empty"); otherwise an
origin outside the allow-list fails with `OriginNotAllowed`; in the first two
cases no network access occurs (`fetched = false`). -/
theorem spec_C4_validationOrder :
    (∀ (s : Storage) (now : Nat) (env : Str → FetchOutcome) (h p : Str),
      (h = [] →
        Storage.Get s now env h p = ⟨Object.zero, some .hostNameEmpty, s, false⟩) ∧
      (h ≠ [] → p = [] →
        Storage.Get s now env h p = ⟨Object.zero, some .pageNameEmpty, s, false⟩) ∧
      (h ≠ [] → p ≠ [] → h ∉ s.allowed →
        Storage.Get s now env h p = ⟨Object.zero, some .hostNotAllowed, s, false⟩)) ∧
    ResolveError.hostNameEmpty.kind = .invalidInput ∧
    ResolveError.pageNameEmpty.kind = .invalidInput ∧
    ResolveError.hostNotAllowed.kind = .originNotAllowed := by
  refine ⟨fun s now env h p => ⟨?_, ?_, ?_⟩, rfl, rfl, rfl⟩
  · intro hh; subst hh; exact resolve_emptyHost s now env p
  · intro hh hp; subst hp; exact resolve_emptyPage s now env h hh
  · intro hh hp hm; exact resolve_notAllowed s now env h p hh hp hm

/-- C4 witness: the three validation outcomes at concrete inputs. -/
theorem spec_C4_validationOrder_witness :
    Storage.Get NewStorage 0 wEnvErr [] ['x'] =
      ⟨Object.zero, some .hostNameEmpty, NewStorage, false⟩ ∧
    Storage.Get NewStorage 0 wEnvErr ['x'] [] =
      ⟨Object.zero, some .pageNameEmpty, NewStorage, false⟩ ∧
    Storage.Get NewStorage 0 wEnvErr ['x'] ['y'] =
      ⟨Object.zero, some .hostNotAllowed, NewStorage, false⟩ :=
  ⟨(spec_C4_validationOrder.1 NewStorage 0 wEnvErr [] ['x']).1 rfl,
   (spec_C4_validationOrder.1 NewStorage 0 wEnvErr ['x'] []).2.1 (by decide) rfl,
   (spec_C4_validationOrder.1 NewStorage 0 wEnvErr ['x'] ['y']).2.2
     (by decide) (by decide) (by decide)⟩

/-- C3: for every origin not in the allow-list (with non-empty origin and
resource), resolve fails with `OriginNotAllowed`, performs no network access
(`fetched = false`), and leaves the state — in particular the Cache Store —
unmodified. -/
theorem spec_C3_originNotAllowed (s : Storage) (now : Nat) (env : Str → FetchOutcome)
    (h p : Str) (hh : h ≠ []) (hp : p ≠ []) (hm : h ∉ s.allowed) :
    Storage.Get s now env h p = ⟨Object.zero, some .hostNotAllowed, s, false⟩ ∧
    ResolveError.hostNotAllowed.kind = .originNotAllowed :=
  ⟨resolve_notAllowed s now env h p hh hp hm, rfl⟩

/-- C3 witness: a non-allow-listed origin on the freshly constructed service. -/
theorem spec_C3_originNotAllowed_witness :
    Storage.Get NewStorage 0 wEnvErr ['n', 'o'] ['x'] =
      ⟨Object.zero, some .hostNotAllowed, NewStorage, false⟩ ∧
    ResolveError.hostNotAllowed.kind = .originNotAllowed :=
  spec_C3_originNotAllowed NewStorage 0 wEnvErr ['n', 'o'] ['x']
    (by decide) (by decide) (by decide)

/-- C2: a fresh cache hit is served with no network I/O and no state change,
and hence a second resolve call for the same key within TTL of a first
successful fetch returns the very object the first call produced (so the
bodies are byte-identical and the digests equal), with only the first call
fetching. -/
theorem spec_C2_freshHitIdempotent :
    (∀ (s : Storage) (now : Nat) (env : Str → FetchOutcome) (h p : Str) (obj : Object),
      h ≠ [] → p ≠ [] → h ∈ s.allowed →
      Cache.Get s.cache h p = (obj, true) → now < obj.ExpiryTime →
      Storage.Get s now env h p = ⟨obj, none, s, false⟩) ∧
    (∀ (s : Storage) (now1 : Nat) (env1 : Str → FetchOutcome) (h p : Str)
       (now2 : Nat) (env2 : Str → FetchOutcome),
      (Storage.Get s now1 env1 h p).fetched = true →
      (Storage.Get s now1 env1 h p).err = none →
      now2 < now1 + TTL →
      Storage.Get (Storage.Get s now1 env1 h p).state now2 env2 h p =
        ⟨(Storage.Get s now1 env1 h p).obj, none,
         (Storage.Get s now1 env1 h p).state, false⟩) := by
  constructor
  · intro s now env h p obj hh hp hm hg hfresh
    exact resolve_hit s now env h p obj hh hp hm hg hfresh
  · intro s now1 env1 h p now2 env2 hf he hlt
    obtain ⟨hh, hp, hm, hmiss⟩ := fetched_eq_true s now1 env1 h p hf
    have hrm := resolve_miss s now1 env1 h p hh hp hm hmiss
    cases henv : env1 (h ++ '/' :: p) with
    | transportError =>
      rw [henv] at hrm
      rw [hrm] at he
      simp at he
    | response st ct body =>
      cases body with
      | none =>
        rw [henv] at hrm
        rw [hrm] at he
        simp at he
      | some content =>
        rw [henv] at hrm
        rw [hrm]
        exact resolve_hit _ now2 env2 h p _ hh hp hm
          (cacheGet_put_self s.cache h p _) hlt

/-- C2 witness: a successful fetch at time 5 followed by a second call at
time 6 (within TTL) returns the first call's object from cache with no
fetch. -/
theorem spec_C2_freshHitIdempotent_witness :
    Storage.Get (Storage.Get NewStorage 5 wEnvOk pgHost wPage).state 6 wEnvErr pgHost wPage =
      ⟨(Storage.Get NewStorage 5 wEnvOk pgHost wPage).obj, none,
       (Storage.Get NewStorage 5 wEnvOk pgHost wPage).state, false⟩ :=
  spec_C2_freshHitIdempotent.2 NewStorage 5 wEnvOk pgHost wPage 6 wEnvErr
    (by decide) (by decide) (by decide)

/-- C5: for every resolve call that performs its fetch and whose fetch fails
(transport error, or a response whose body read fails), resolve returns an
error of kind `FetchFailed` with the zero object, and the state — in
particular the Cache Store, including any stale entry for the key — is
exactly as it was before the call. -/
theorem spec_C5_fetchFailureLeavesCache (s : Storage) (now : Nat)
    (env : Str → FetchOutcome) (h p : Str)
    (hf : (Storage.Get s now env h p).fetched = true)
    (hfail : env (h ++ '/' :: p) = .transportError ∨
             ∃ st ct, env (h ++ '/' :: p) = .response st ct none) :
    ∃ e, Storage.Get s now env h p = ⟨Object.zero, some e, s, true⟩ ∧
         ResolveError.kind e = .fetchFailed := by
  obtain ⟨hh, hp, hm, hmiss⟩ := fetched_eq_true s now env h p hf
  have hrm := resolve_miss s now env h p hh hp hm hmiss
  rcases hfail with henv | ⟨st, ct, henv⟩
  · rw [henv] at hrm
    exact ⟨.getFailed, hrm, rfl⟩
  · rw [henv] at hrm
    exact ⟨.readFailed, hrm, rfl⟩

/-- C5 witness: a transport error on the fresh service returns an error of
kind `FetchFailed` and leaves the (empty) cache untouched. -/
theorem spec_C5_fetchFailureLeavesCache_witness :
    ∃ e, Storage.Get NewStorage 0 wEnvErr pgHost wPage =
           ⟨Object.zero, some e, NewStorage, true⟩ ∧
         ResolveError.kind e = .fetchFailed :=
  spec_C5_fetchFailureLeavesCache NewStorage 0 wEnvErr pgHost wPage
    (by decide) (Or.inl rfl)

/-- C1 counterexample: the claim says a non-2xx origin response makes resolve
fail with `FetchFailed` and caches nothing, but the code never inspects the
status code.  With a 404 response whose body reads as "a", resolve on the
fresh service succeeds (`err = none`) after fetching, and the 404 body is
stored in the cache (the key was absent before the call). -/
theorem spec_C1_non2xx_counterexample :
    (Storage.Get NewStorage 0 wEnv404 pgHost wPage).err = none ∧
    (Storage.Get NewStorage 0 wEnv404 pgHost wPage).fetched = true ∧
    Cache.Get (Storage.Get NewStorage 0 wEnv404 pgHost wPage).state.cache pgHost wPage =
      ((Storage.Get NewStorage 0 wEnv404 pgHost wPage).obj, true) ∧
    Cache.Get NewStorage.cache pgHost wPage = (Object.zero, false) := by
  refine ⟨by decide, by decide, by decide, by decide⟩

/-- C1 amended: on the fetch path, a transport error fails with `FetchFailed`
("failed to get object") and nothing is cached; a body-read failure fails
with `FetchFailed` ("failed to read object") and nothing is cached; and a
response whose body is read successfully is treated as success regardless of
its HTTP status — the body is hashed, cached and returned. -/
theorem spec_C1_fetchOutcomes (s : Storage) (now : Nat) (env : Str → FetchOutcome)
    (h p : Str) (hf : (Storage.Get s now env h p).fetched = true) :
    (env (h ++ '/' :: p) = .transportError →
      Storage.Get s now env h p = ⟨Object.zero, some .getFailed, s, true⟩) ∧
    (∀ st ct, env (h ++ '/' :: p) = .response st ct none →
      Storage.Get s now env h p = ⟨Object.zero, some .readFailed, s, true⟩) ∧
    (∀ st ct content, env (h ++ '/' :: p) = .response st ct (some content) →
      Storage.Get s now env h p =
        ⟨⟨md5Hex content, ct, content, now, now + TTL⟩, none,
         ⟨s.allowed, Cache.Put s.cache h p ⟨md5Hex content, ct, content, now, now + TTL⟩⟩,
         true⟩) ∧
    ResolveError.getFailed.kind = .fetchFailed ∧
    ResolveError.readFailed.kind = .fetchFailed := by
  obtain ⟨hh, hp, hm, hmiss⟩ := fetched_eq_true s now env h p hf
  have hrm := resolve_miss s now env h p hh hp hm hmiss
  refine ⟨?_, ?_, ?_, rfl, rfl⟩
  · intro henv; rw [henv] at hrm; exact hrm
  · intro st ct henv; rw [henv] at hrm; exact hrm
  · intro st ct content henv; rw [henv] at hrm; exact hrm

/-- C1 amended witness: the 404 response with body "a" is cached and
returned as a success. -/
theorem spec_C1_fetchOutcomes_witness :
    Storage.Get NewStorage 0 wEnv404 pgHost wPage =
      ⟨⟨md5Hex [97], [], [97], 0, 0 + TTL⟩, none,
       ⟨NewStorage.allowed,
        Cache.Put NewStorage.cache pgHost wPage ⟨md5Hex [97], [], [97], 0, 0 + TTL⟩⟩,
       true⟩ :=
  (spec_C1_fetchOutcomes NewStorage 0 wEnv404 pgHost wPage (by decide)).2.2.1
    404 [] [97] rfl

/-- C6: the TTL invariant.  The freshly constructed service's cache satisfies
it, every resolve call preserves it, and every object returned by a
successful resolve call satisfies `expiresAt = fetchedAt + TTL` with TTL the
fixed 24 hours. -/
theorem spec_C6_ttlInvariant :
    Cache.wellExpired NewStorage.cache ∧
    (∀ (s : Storage) (now : Nat) (env : Str → FetchOutcome) (h p : Str),
      Cache.wellExpired s.cache →
      Cache.wellExpired (Storage.Get s now env h p).state.cache ∧
      ((Storage.Get s now env h p).err = none →
        Object.ttlOK (Storage.Get s now env h p).obj)) := by
  constructor
  · intro e he; simp [NewStorage] at he
  · intro s now env h p hw
    by_cases hh : h = []
    · subst hh
      rw [resolve_emptyHost]
      exact ⟨hw, fun he => by simp at he⟩
    · by_cases hp : p = []
      · subst hp
        rw [resolve_emptyPage s now env h hh]
        exact ⟨hw, fun he => by simp at he⟩
      · by_cases hm : h ∈ s.allowed
        · by_cases hmiss :
            (Cache.Get s.cache h p).2 = true ∧ now < (Cache.Get s.cache h p).1.ExpiryTime
          · have hg : Cache.Get s.cache h p = ((Cache.Get s.cache h p).1, true) := by
              rw [← hmiss.1]
            rw [resolve_hit s now env h p _ hh hp hm hg hmiss.2]
            exact ⟨hw, fun _ => wellExpired_get hw hg⟩
          · have hrm := resolve_miss s now env h p hh hp hm hmiss
            cases henv : env (h ++ '/' :: p) with
            | transportError =>
              rw [henv] at hrm; rw [hrm]
              exact ⟨hw, fun he => by simp at he⟩
            | response st ct body =>
              cases body with
              | none =>
                rw [henv] at hrm; rw [hrm]
                exact ⟨hw, fun he => by simp at he⟩
              | some content =>
                rw [henv] at hrm; rw [hrm]
                exact ⟨wellExpired_put hw rfl, fun _ => rfl⟩
        · rw [resolve_notAllowed s now env h p hh hp hm]
          exact ⟨hw, fun he => by simp at he⟩

/-- C6 witness: after one successful fetch on the fresh service the cache
satisfies the invariant and the returned object satisfies it too. -/
theorem spec_C6_ttlInvariant_witness :
    Cache.wellExpired (Storage.Get NewStorage 0 wEnvOk pgHost wPage).state.cache ∧
    Object.ttlOK (Storage.Get NewStorage 0 wEnvOk pgHost wPage).obj :=
  ⟨(spec_C6_ttlInvariant.2 NewStorage 0 wEnvOk pgHost wPage (by decide)).1,
   (spec_C6_ttlInvariant.2 NewStorage 0 wEnvOk pgHost wPage (by decide)).2 (by decide)⟩

/-- C7: for every resolve call that performs its fetch and succeeds, the
returned digest is exactly `md5Hex` of the returned body bytes — a fixed
deterministic function of the body and of nothing else. -/
theorem spec_C7_digestOfBody (s : Storage) (now : Nat) (env : Str → FetchOutcome)
    (h p : Str) (hf : (Storage.Get s now env h p).fetched = true)
    (he : (Storage.Get s now env h p).err = none) :
    (Storage.Get s now env h p).obj.Etag =
      md5Hex (Storage.Get s now env h p).obj.Content := by
  obtain ⟨hh, hp, hm, hmiss⟩ := fetched_eq_true s now env h p hf
  have hrm := resolve_miss s now env h p hh hp hm hmiss
  cases henv : env (h ++ '/' :: p) with
  | transportError => rw [henv] at hrm; rw [hrm] at he; simp at he
  | response st ct body =>
    cases body with
    | none => rw [henv] at hrm; rw [hrm] at he; simp at he
    | some content => rw [henv] at hrm; rw [hrm]

/-- C7 witness: the digest/body relation after a concrete successful fetch. -/
theorem spec_C7_digestOfBody_witness :
    (Storage.Get NewStorage 0 wEnvOk pgHost wPage).obj.Etag =
      md5Hex (Storage.Get NewStorage 0 wEnvOk pgHost wPage).obj.Content :=
  spec_C7_digestOfBody NewStorage 0 wEnvOk pgHost wPage (by decide) (by decide)

/-- C8 counterexample: the claim describes the handler as splitting the
scheme-stripped remainder on the first '/' with the remainder-path as the
resource, but on "https://host/path/" the handler first removes the trailing
slash: the claim's description yields resource "path/" while the code yields
"path". -/
theorem spec_C8_trailingSlash_counterexample :
    specParseC8 c8url = some (httpsPfx ++ ['h', 'o', 's', 't'], ['p', 'a', 't', 'h', '/']) ∧
    parseUrl c8url = some (httpsPfx ++ ['h', 'o', 's', 't'], ['p', 'a', 't', 'h']) ∧
    parseUrl c8url ≠ specParseC8 c8url := by
  exact ⟨by decide, by decide, by decide⟩

/-- C8 amended: the handler strips a leading "https://" or "http://"
(recording it as the scheme), otherwise uses the literal "httpd://"; it then
removes all trailing '/' characters from the remainder and splits it on the
first '/' into host and remainder-path, with origin = scheme + host and
resource = remainder-path; inputs whose trimmed remainder has no '/'
separator are answered with 404 Not Found. -/
theorem spec_C8_parseAmended :
    (∀ url : Str, parseUrl url = specParseC8Amended url) ∧
    (∀ (s : Storage) (now : Nat) (env : Str → FetchOutcome) (url : Str),
      parseUrl url = none → handleGet s now env url = (.notFound, s)) := by
  constructor
  · intro url
    simp only [parseUrl, specParseC8Amended, parseRest]
    rw [removeTrailing_eq_trim, splitOnFirst_eq_splitFirstSlash]
  · intro s now env url hn
    unfold handleGet
    rw [hn]

/-- C8 witness: the amended description agrees with the handler on the
counterexample url, and a separator-free input is answered 404. -/
theorem spec_C8_parseAmended_witness :
    parseUrl c8url = specParseC8Amended c8url ∧
    handleGet NewStorage 0 wEnvErr ['a'] = (.notFound, NewStorage) :=
  ⟨spec_C8_parseAmended.1 c8url,
   spec_C8_parseAmended.2 NewStorage 0 wEnvErr ['a'] (by decide)⟩

/-- C10: before splitting, the handler removes all trailing '/' characters
from the scheme-stripped url: "host/path", "host/path/" and "host/path///"
all yield resource "path" (for any host without '/' and any non-empty path
not ending in '/'), an input consisting of a host followed only by slashes
parses to nothing, and a failed parse is answered with 404 Not Found. -/
theorem spec_C10_trailingSlashes :
    (∀ h p : Str, '/' ∉ h → p ≠ [] → p.getLast? ≠ some '/' →
      parseRest (h ++ '/' :: p) = some (h, p) ∧
      parseRest ((h ++ '/' :: p) ++ ['/']) = some (h, p) ∧
      parseRest ((h ++ '/' :: p) ++ ['/', '/', '/']) = some (h, p)) ∧
    (∀ h : Str, '/' ∉ h → ∀ k : Nat, parseRest (h ++ List.replicate k '/') = none) ∧
    (∀ (s : Storage) (now : Nat) (env : Str → FetchOutcome) (url : Str),
      parseUrl url = none → handleGet s now env url = (.notFound, s)) := by
  refine ⟨?_, ?_, ?_⟩
  · intro h p hh hp hlast
    have hfull : (h ++ '/' :: p).getLast? ≠ some '/' := by
      rw [List.getLast?_append_of_ne_nil h (by simp : ('/' :: p) ≠ [])]
      cases p with
      | nil => exact absurd rfl hp
      | cons c t => rw [List.getLast?_cons_cons]; exact hlast
    have base : parseRest (h ++ '/' :: p) = some (h, p) := by
      unfold parseRest
      rw [trim_no_trailing hfull, splitFirstSlash_at hh]
    refine ⟨base, ?_, ?_⟩
    · unfold parseRest
      rw [trim_append_slash]
      exact base
    · unfold parseRest
      rw [show ((h ++ '/' :: p) ++ ['/', '/', '/']) =
            (h ++ '/' :: p) ++ List.replicate 3 '/' from rfl, trim_replicate]
      exact base
  · intro h hh k
    unfold parseRest
    rw [trim_replicate, trim_no_trailing (getLast?_no_slash hh), splitFirstSlash_none hh]
  · intro s now env url hn
    unfold handleGet
    rw [hn]

/-- C10 witness: the trailing-slash behavior at "host"/"path" and the
slashes-only malformed case. -/
theorem spec_C10_trailingSlashes_witness :
    (parseRest (['h', 'o', 's', 't'] ++ '/' :: ['p', 'a', 't', 'h']) =
       some (['h', 'o', 's', 't'], ['p', 'a', 't', 'h']) ∧
     parseRest ((['h', 'o', 's', 't'] ++ '/' :: ['p', 'a', 't', 'h']) ++ ['/']) =
       some (['h', 'o', 's', 't'], ['p', 'a', 't', 'h']) ∧
     parseRest ((['h', 'o', 's', 't'] ++ '/' :: ['p', 'a', 't', 'h']) ++ ['/', '/', '/']) =
       some (['h', 'o', 's', 't'], ['p', 'a', 't', 'h'])) ∧
    parseRest (['h', 'o', 's', 't'] ++ List.replicate 2 '/') = none :=
  ⟨spec_C10_trailingSlashes.1 ['h', 'o', 's', 't'] ['p', 'a', 't', 'h']
     (by decide) (by decide) (by decide),
   spec_C10_trailingSlashes.2.1 ['h', 'o', 's', 't'] (by decide) 2⟩
